import Mathlib

/-!
Verification of the `solana_idl_parser` schema compiler and decoder.

The repository is a Rust procedural macro (`src/lib.rs`, `src/parser.rs`,
`src/generator.rs`) that reads an Anchor IDL document and generates, per
instruction: a discriminator constant, an accounts struct (with a
`from_account_metas` binder), an args struct (deriving borsh
serialization), one variant of an instructions enum, and a `deserialize`
function that dispatches on the leading 8 bytes of the buffer.

This file gives a shallow embedding:

* the IDL data model mirrors the serde structs of `src/parser.rs`;
* `decTys` / `decPrim` / `decode` give the semantics of the generated
  `deserialize` code of `src/generator.rs` (borsh deserialization of the
  generated structs, positional account binding, discriminator dispatch);
* `generateDiscriminators`, `generateInstructionStructs`,
  `generateInstructionsEnum`, `variantShape`, `decoderShape`,
  `generateIdlCode` model the declaration emitter of `src/generator.rs`.

Byte buffers are `List Nat` (a real byte is `< 256`; the decoder never
needs that bound).  Machine integers are `Nat` bit patterns with explicit
`2 ^ (8 * w)` bounds, signed integers being represented by their
two's-complement byte pattern, exactly as they appear on the wire.
-/

/-! ## IDL data model (mirrors `src/parser.rs`) -/

/-- Mirrors `IdlMetadata` of `src/parser.rs`. -/
structure IdlMetadata where
  name : String
  version : String
  spec : Option String := none
  description : Option String := none
deriving DecidableEq

/-- Mirrors `IdlDefinedType` of `src/parser.rs` (untagged: plain string or
`{ name: ... }`). -/
inductive IdlDefinedType where
  | simple (s : String)
  | named (name : String)
deriving DecidableEq

/-- Mirrors `IdlType` of `src/parser.rs`: primitives are carried by name,
`defined` is a reference to a named type, `option`/`vec` are prefix-flagged
and length-prefixed wrappers, `array` is a fixed-size sequence. -/
inductive IdlType where
  | primitive (s : String)
  | defined (d : IdlDefinedType)
  | option (inner : IdlType)
  | vec (inner : IdlType)
  | array (inner : IdlType) (size : Nat)
deriving DecidableEq

/-- Mirrors `IdlField` of `src/parser.rs`. -/
structure IdlField where
  name : String
  ty : IdlType
deriving DecidableEq

/-- Mirrors `IdlSeed` of `src/parser.rs` (pda derivation hints; ignored by
code generation and decoding). -/
inductive IdlSeed where
  | const (value : List Nat)
  | arg (path : String)
  | account (path : String) (account : Option String)
deriving DecidableEq

/-- Mirrors `IdlPda` of `src/parser.rs`. -/
structure IdlPda where
  seeds : List IdlSeed
  program : Option IdlSeed := none
deriving DecidableEq

/-- Mirrors `IdlInstructionAccount` of `src/parser.rs`.  Only `name` and
ordinal position are consumed by the generator; the flags and derivation
hints are carried for fidelity. -/
structure IdlInstructionAccount where
  name : String
  writable : Bool := false
  signer : Bool := false
  optional : Bool := false
  address : Option String := none
  pda : Option IdlPda := none
  relations : List String := []
deriving DecidableEq

/-- Mirrors `IdlInstruction` of `src/parser.rs`.  The discriminator is the
raw byte vector of the document (the generator renders it as a `[u8; 8]`
constant). -/
structure IdlInstruction where
  name : String
  docs : List String := []
  discriminator : List Nat
  accounts : List IdlInstructionAccount
  args : List IdlField := []
deriving DecidableEq

/-- Mirrors `IdlTypeDefFields` of `src/parser.rs` (untagged; `None` is the
serde default). -/
inductive IdlTypeDefFields where
  | none
  | named (fields : List IdlField)
  | tuple (tys : List IdlType)
deriving DecidableEq

/-- Mirrors `IdlEnumVariantFields` of `src/parser.rs`. -/
inductive IdlEnumVariantFields where
  | named (fields : List IdlField)
  | tuple (tys : List IdlType)
deriving DecidableEq

/-- Mirrors `IdlEnumVariant` of `src/parser.rs`. -/
structure IdlEnumVariant where
  name : String
  fields : Option IdlEnumVariantFields := Option.none
deriving DecidableEq

/-- Mirrors `IdlTypeDefType` of `src/parser.rs`: `kind` is the raw string
(`"struct"` or `"enum"`; anything else generates no declaration). -/
structure IdlTypeDefType where
  kind : String
  fields : IdlTypeDefFields := .none
  variants : List IdlEnumVariant := []
deriving DecidableEq

/-- Mirrors `IdlTypeDef` of `src/parser.rs`. -/
structure IdlTypeDef where
  name : String
  ty : IdlTypeDefType
deriving DecidableEq

/-- Mirrors `IdlAccount` of `src/parser.rs` (informational for this core). -/
structure IdlAccount where
  name : String
  discriminator : List Nat
deriving DecidableEq

/-- Mirrors `IdlEvent` of `src/parser.rs` (informational for this core). -/
structure IdlEvent where
  name : String
  discriminator : List Nat
deriving DecidableEq

/-- Mirrors `IdlError` of `src/parser.rs` (informational for this core). -/
structure IdlError where
  code : Nat
  name : String
  msg : Option String := Option.none
deriving DecidableEq

/-- Mirrors `Idl` of `src/parser.rs`. -/
structure Idl where
  address : String
  metadata : IdlMetadata
  instructions : List IdlInstruction
  accounts : List IdlAccount := []
  types : List IdlTypeDef := []
  events : List IdlEvent := []
  errors : List IdlError := []
deriving DecidableEq

/-! ## Runtime values

A `Value` is the payload a generated (borsh-derived) struct or enum field
holds after deserialization.  Integer fields hold their little-endian bit
pattern (`vInt w n` with `n < 2 ^ (8 * w)`); float fields hold their raw
wire bytes; strings, byte vectors and pubkeys hold their byte lists;
structs, tuples and enum variants hold their field values in declaration
order. -/
inductive Value where
  | vInt (width : Nat) (n : Nat)
  | vBool (b : Bool)
  | vFloat (bytes : List Nat)
  | vString (bytes : List Nat)
  | vBytes (bytes : List Nat)
  | vPubkey (bytes : List Nat)
  | vOption (v : Option Value)
  | vVec (vs : List Value)
  | vArray (vs : List Value)
  | vStruct (vs : List Value)
  | vEnum (tag : Nat) (vs : List Value)

/-! ## Byte-level helpers -/

/-- Little-endian byte rendering of `n` on `w` bytes (borsh fixed-width
integer encoding; for signed Rust types `n` is the two's-complement
pattern). -/
def leBytes : Nat → Nat → List Nat
  | 0, _ => []
  | w + 1, n => n % 256 :: leBytes w (n / 256)

/-- Read a `w`-byte little-endian integer from the front of the buffer,
as the generated borsh code does for fixed-width integer fields. -/
def readLE : Nat → List Nat → Option (Nat × List Nat)
  | 0, bs => some (0, bs)
  | _ + 1, [] => Option.none
  | w + 1, b :: bs => (readLE w bs).map fun p => (b + 256 * p.1, p.2)

/-- Read exactly `n` raw bytes from the front of the buffer. -/
def readBytes (n : Nat) (bs : List Nat) : Option (List Nat × List Nat) :=
  if n ≤ bs.length then some (bs.take n, bs.drop n) else Option.none

/-- Byte width of the fixed-width integer primitives of
`idl_type_to_rust` in `src/generator.rs` (`u8`..`u128`, `i8`..`i128`);
`none` for every other primitive name. -/
def intWidth : String → Option Nat
  | "u8" => some 1
  | "u16" => some 2
  | "u32" => some 4
  | "u64" => some 8
  | "u128" => some 16
  | "i8" => some 1
  | "i16" => some 2
  | "i32" => some 4
  | "i64" => some 8
  | "i128" => some 16
  | _ => Option.none

/-- NaN test on a 4-byte little-endian IEEE-754 pattern: exponent bits all
ones and nonzero mantissa.  Borsh deserialization of `f32` rejects NaN. -/
def isNaN32 (bs : List Nat) : Bool :=
  match bs with
  | [b0, b1, b2, b3] =>
    let bits := b0 + 256 * b1 + 65536 * b2 + 16777216 * b3
    (bits / 2 ^ 23) % 2 ^ 8 == 2 ^ 8 - 1 && bits % 2 ^ 23 != 0
  | _ => false

/-- NaN test on an 8-byte little-endian IEEE-754 pattern: exponent bits all
ones and nonzero mantissa.  Borsh deserialization of `f64` rejects NaN. -/
def isNaN64 (bs : List Nat) : Bool :=
  match readLE 8 bs with
  | some (bits, rest) =>
    rest.isEmpty && (bits / 2 ^ 52) % 2 ^ 11 == 2 ^ 11 - 1 && bits % 2 ^ 52 != 0
  | Option.none => false

/-- UTF-8 validity of a byte list, as `String::from_utf8` checks it during
borsh deserialization of a `String` field (continuation ranges, overlong
forms, surrogates and out-of-range code points rejected). -/
def isValidUtf8 : List Nat → Bool
  | [] => true
  | b :: rest =>
    if b < 0x80 then isValidUtf8 rest
    else if 0xC2 ≤ b && b ≤ 0xDF then
      match rest with
      | c1 :: rest' => 0x80 ≤ c1 && c1 ≤ 0xBF && isValidUtf8 rest'
      | [] => false
    else if b == 0xE0 then
      match rest with
      | c1 :: c2 :: rest' =>
        0xA0 ≤ c1 && c1 ≤ 0xBF && 0x80 ≤ c2 && c2 ≤ 0xBF && isValidUtf8 rest'
      | _ => false
    else if (0xE1 ≤ b && b ≤ 0xEC) || b == 0xEE || b == 0xEF then
      match rest with
      | c1 :: c2 :: rest' =>
        0x80 ≤ c1 && c1 ≤ 0xBF && 0x80 ≤ c2 && c2 ≤ 0xBF && isValidUtf8 rest'
      | _ => false
    else if b == 0xED then
      match rest with
      | c1 :: c2 :: rest' =>
        0x80 ≤ c1 && c1 ≤ 0x9F && 0x80 ≤ c2 && c2 ≤ 0xBF && isValidUtf8 rest'
      | _ => false
    else if b == 0xF0 then
      match rest with
      | c1 :: c2 :: c3 :: rest' =>
        0x90 ≤ c1 && c1 ≤ 0xBF && 0x80 ≤ c2 && c2 ≤ 0xBF &&
          0x80 ≤ c3 && c3 ≤ 0xBF && isValidUtf8 rest'
      | _ => false
    else if 0xF1 ≤ b && b ≤ 0xF3 then
      match rest with
      | c1 :: c2 :: c3 :: rest' =>
        0x80 ≤ c1 && c1 ≤ 0xBF && 0x80 ≤ c2 && c2 ≤ 0xBF &&
          0x80 ≤ c3 && c3 ≤ 0xBF && isValidUtf8 rest'
      | _ => false
    else if b == 0xF4 then
      match rest with
      | c1 :: c2 :: c3 :: rest' =>
        0x80 ≤ c1 && c1 ≤ 0x8F && 0x80 ≤ c2 && c2 ≤ 0xBF &&
          0x80 ≤ c3 && c3 ≤ 0xBF && isValidUtf8 rest'
      | _ => false
    else false

/-- Name carried by a `Defined` type reference (`src/generator.rs`,
`idl_type_to_rust`, `IdlType::Defined` arm). -/
def definedName : IdlDefinedType → String
  | .simple s => s
  | .named n => n

/-- Field types of a struct type definition in declaration order
(`generate_types` in `src/generator.rs`: named fields, tuple fields, or a
unit struct). -/
def structFieldTys : IdlTypeDefFields → List IdlType
  | .none => []
  | .named fields => fields.map (·.ty)
  | .tuple tys => tys

/-- Field types of an enum variant in declaration order
(`generate_enum_variant` in `src/generator.rs`). -/
def variantFieldTys : Option IdlEnumVariantFields → List IdlType
  | Option.none => []
  | some (.named fields) => fields.map (·.ty)
  | some (.tuple tys) => tys

/-- Resolution of a `Defined` reference: the generated Rust item with that
name.  All type definitions are emitted at the same level, so a reference
resolves to the (first) definition carrying the name. -/
def lookupType (types : List IdlTypeDef) (name : String) : Option IdlTypeDef :=
  types.find? (fun td => td.name == name)

/-! ## Borsh deserialization of generated types

`decPrim` is the borsh `deserialize` of one primitive field of a generated
struct (fixed-width little-endian integers, `bool` from `0`/`1`, floats
with NaN rejection, `u32`-length-prefixed `String`/`Vec<u8>`, 32-byte
`Pubkey`).  `decTys` deserializes a list of field types in order, threading
the buffer, exactly as the borsh derive on a generated struct does; a
`Vec`/array of `n` elements is `n` consecutive element decodes, an enum is
a one-byte variant ordinal followed by that variant's fields.  `fuel`
bounds the recursion depth; every failure (including fuel exhaustion,
which the theorems avoid by supplying enough fuel) is `none`, matching the
generated code's borsh error result. -/
def decPrim (s : String) (bs : List Nat) : Option (Value × List Nat) :=
  match intWidth s with
  | some w => (readLE w bs).map fun p => (.vInt w p.1, p.2)
  | Option.none =>
    if s = "bool" then
      match bs with
      | 0 :: r => some (.vBool false, r)
      | 1 :: r => some (.vBool true, r)
      | _ => Option.none
    else if s = "f32" then
      match readBytes 4 bs with
      | some (cs, r) => if isNaN32 cs then Option.none else some (.vFloat cs, r)
      | Option.none => Option.none
    else if s = "f64" then
      match readBytes 8 bs with
      | some (cs, r) => if isNaN64 cs then Option.none else some (.vFloat cs, r)
      | Option.none => Option.none
    else if s = "string" then
      match readLE 4 bs with
      | some (n, r) =>
        match readBytes n r with
        | some (cs, r') => if isValidUtf8 cs then some (.vString cs, r') else Option.none
        | Option.none => Option.none
      | Option.none => Option.none
    else if s = "bytes" then
      match readLE 4 bs with
      | some (n, r) =>
        match readBytes n r with
        | some (cs, r') => some (.vBytes cs, r')
        | Option.none => Option.none
      | Option.none => Option.none
    else if s = "pubkey" then
      match readBytes 32 bs with
      | some (cs, r) => some (.vPubkey cs, r)
      | Option.none => Option.none
    else Option.none

/-- Borsh deserialization of a list of field types in declaration order;
see `decPrim`. -/
def decTys : Nat → List IdlTypeDef → List IdlType → List Nat →
    Option (List Value × List Nat)
  | 0, _, _, _ => Option.none
  | _ + 1, _, [], bs => some ([], bs)
  | fuel + 1, types, t :: ts, bs =>
    let head : Option (Value × List Nat) :=
      match t with
      | .primitive s => decPrim s bs
      | .option t' =>
        match bs with
        | 0 :: r => some (.vOption Option.none, r)
        | 1 :: r =>
          match decTys fuel types [t'] r with
          | some ([v], r') => some (.vOption (some v), r')
          | _ => Option.none
        | _ => Option.none
      | .vec t' =>
        match readLE 4 bs with
        | some (n, r) =>
          match decTys fuel types (List.replicate n t') r with
          | some (vs, r') => some (.vVec vs, r')
          | Option.none => Option.none
        | Option.none => Option.none
      | .array t' size =>
        match decTys fuel types (List.replicate size t') bs with
        | some (vs, r') => some (.vArray vs, r')
        | Option.none => Option.none
      | .defined d =>
        match lookupType types (definedName d) with
        | some td =>
          if td.ty.kind = "struct" then
            match decTys fuel types (structFieldTys td.ty.fields) bs with
            | some (vs, r') => some (.vStruct vs, r')
            | Option.none => Option.none
          else if td.ty.kind = "enum" then
            match bs with
            | tag :: r =>
              match td.ty.variants[tag]? with
              | some var =>
                match decTys fuel types (variantFieldTys var.fields) r with
                | some (vs, r') => some (.vEnum tag vs, r')
                | Option.none => Option.none
              | Option.none => Option.none
            | [] => Option.none
          else Option.none
        | Option.none => Option.none
    match head with
    | some (v, r) =>
      match decTys fuel types ts r with
      | some (vs, r') => some (v :: vs, r')
      | Option.none => Option.none
    | Option.none => Option.none

/-! ## The generated decoder (`deserialize` in `src/generator.rs`) -/

/-- Mirrors `solana_program::instruction::AccountMeta`: a pubkey (opaque
identifier here) plus signer/writable flags.  The generated
`from_account_metas` reads only `pubkey`. -/
structure AccountMeta where
  pubkey : Nat
  isSigner : Bool := false
  isWritable : Bool := false
deriving DecidableEq

/-- Failure modes of the generated `deserialize`, one constructor per
distinct error value the generated Rust code can produce:
`read_exact` failing on a short buffer, the fall-through
"unknown discriminator" arm, the fixed "invalid account meta length"
error of `from_account_metas` (which carries no further data), and a
borsh deserialization failure of the args struct. -/
inductive DecodeError where
  | truncatedDiscriminator
  | unknownDiscriminator
  | invalidAccountMetaLength
  | malformedPayload
deriving DecidableEq

/-- Result of a successful decode: the matched instruction (by schema
name; the generated enum renders it in Pascal case), the bound account
pubkeys when the instruction declares accounts, and the decoded args
field values when it declares args.  This is the payload of the generated
enum variant. -/
structure Decoded where
  name : String
  accounts : Option (List Nat)
  args : Option (List Value)

/-- Mirrors the generated `from_account_metas` (`generate_instruction_structs`
in `src/generator.rs`): require exactly the declared number of metas,
otherwise the fixed "invalid account meta length" error; on success bind
`metas[i].pubkey` positionally. -/
def fromAccountMetas (descs : List IdlInstructionAccount)
    (metas : List AccountMeta) : Except DecodeError (List Nat) :=
  if metas.length ≠ descs.length then .error .invalidAccountMetaLength
  else .ok (metas.map (·.pubkey))

/-- Semantics of the generated `deserialize` (`generate_deserialize_impl` in
`src/generator.rs`): read 8 bytes (`read_exact`, failing on a shorter
buffer), match them against the discriminator constants in instruction
order, and run the match arm selected by the `(has_accounts, has_args)`
shape of the matched instruction — accounts bound first, then args
deserialized from the remaining bytes.  Trailing bytes after the args are
never examined. -/
def decode (instrs : List IdlInstruction) (types : List IdlTypeDef)
    (fuel : Nat) (accounts : List AccountMeta) (buf : List Nat) :
    Except DecodeError Decoded :=
  if buf.length < 8 then .error .truncatedDiscriminator
  else
    match instrs.find? (fun ix => ix.discriminator == buf.take 8) with
    | Option.none => .error .unknownDiscriminator
    | some ix =>
      match !ix.accounts.isEmpty, !ix.args.isEmpty with
      | true, true =>
        match fromAccountMetas ix.accounts accounts with
        | .error e => .error e
        | .ok accs =>
          match decTys fuel types (ix.args.map (·.ty)) (buf.drop 8) with
          | some (vals, _) => .ok ⟨ix.name, some accs, some vals⟩
          | Option.none => .error .malformedPayload
      | true, false =>
        match fromAccountMetas ix.accounts accounts with
        | .error e => .error e
        | .ok accs => .ok ⟨ix.name, some accs, Option.none⟩
      | false, true =>
        match decTys fuel types (ix.args.map (·.ty)) (buf.drop 8) with
        | some (vals, _) => .ok ⟨ix.name, Option.none, some vals⟩
        | Option.none => .error .malformedPayload
      | false, false => .ok ⟨ix.name, Option.none, Option.none⟩

/-! ## Declaration emitter (`generate_*` in `src/generator.rs`)

Generated identifiers are modelled by the schema names they are built
from; the `convert_case` renderings (Pascal/ScreamingSnake/snake) applied
by `format_ident!` are a presentation detail of the emitted Rust tokens
and are not modelled. -/

/-- Rust value types produced by `idl_type_to_rust` in `src/generator.rs`. -/
inductive RustTy where
  | bool | u8 | u16 | u32 | u64 | u128 | i8 | i16 | i32 | i64 | i128
  | f32 | f64 | string | pubkey
  | ident (name : String)
  | option (inner : RustTy)
  | vec (inner : RustTy)
  | array (inner : RustTy) (size : Nat)
deriving DecidableEq

/-- Mirrors `idl_type_to_rust` of `src/generator.rs`: primitives map by
name (`"bytes"` to `Vec<u8>`, an unknown primitive to a bare identifier),
`Defined` to the referenced item's identifier, `Option`/`Vec`/`Array` to
the corresponding Rust wrappers. -/
def idlTypeToRust : IdlType → RustTy
  | .primitive "bool" => .bool
  | .primitive "u8" => .u8
  | .primitive "u16" => .u16
  | .primitive "u32" => .u32
  | .primitive "u64" => .u64
  | .primitive "u128" => .u128
  | .primitive "i8" => .i8
  | .primitive "i16" => .i16
  | .primitive "i32" => .i32
  | .primitive "i64" => .i64
  | .primitive "i128" => .i128
  | .primitive "f32" => .f32
  | .primitive "f64" => .f64
  | .primitive "string" => .string
  | .primitive "pubkey" => .pubkey
  | .primitive "bytes" => .vec .u8
  | .primitive other => .ident other
  | .defined d => .ident (definedName d)
  | .option inner => .option (idlTypeToRust inner)
  | .vec inner => .vec (idlTypeToRust inner)
  | .array inner size => .array (idlTypeToRust inner) size

/-- An emitted accounts struct: its name and its fields (field name and
field type) in declaration order. -/
structure AccountsRecordDecl where
  structName : String
  fields : List (String × RustTy)
deriving DecidableEq

/-- An emitted args struct: its name and its fields in declaration order. -/
structure ArgsRecordDecl where
  structName : String
  fields : List (String × RustTy)
deriving DecidableEq

/-- Items `generate_instruction_structs` emits for one instruction: the
`*_IX_ACCOUNTS_LEN` constant and the accounts struct (only when the
instruction has accounts), and the args struct (only when it has args). -/
structure IxStructs where
  accountsLenConst : Option (String × Nat)
  accountsRecord : Option AccountsRecordDecl
  argsRecord : Option ArgsRecordDecl
deriving DecidableEq

/-- Mirrors `generate_instruction_structs` of `src/generator.rs`: per
instruction, the accounts items are emitted only under
`!ix.accounts.is_empty()` (every account field typed as
`::solana_sdk::pubkey::Pubkey`), the args struct only under
`!ix.args.is_empty()` (field types via `idl_type_to_rust`). -/
def generateInstructionStructs (instrs : List IdlInstruction) : List IxStructs :=
  instrs.map fun ix =>
    { accountsLenConst :=
        if ix.accounts.isEmpty then Option.none
        else some (ix.name ++ "_IX_ACCOUNTS_LEN", ix.accounts.length)
      accountsRecord :=
        if ix.accounts.isEmpty then Option.none
        else some ⟨ix.name ++ "Accounts",
          ix.accounts.map fun acc => (acc.name, RustTy.pubkey)⟩
      argsRecord :=
        if ix.args.isEmpty then Option.none
        else some ⟨ix.name ++ "Args",
          ix.args.map fun arg => (arg.name, idlTypeToRust arg.ty)⟩ }

/-- Mirrors `generate_discriminators` of `src/generator.rs`: one
`*_DISCRIMINATOR` constant per instruction, carrying the instruction's raw
discriminator bytes, with no validation and no deduplication. -/
def generateDiscriminators (instrs : List IdlInstruction) :
    List (String × List Nat) :=
  instrs.map fun ix => (ix.name ++ "_DISCRIMINATOR", ix.discriminator)

/-- The four payload shapes an instruction's enum variant can take. -/
inductive PayloadShape where
  | unit
  | accountsOnly
  | argsOnly
  | accountsAndArgs
deriving DecidableEq

/-- Shape of the variant emitted by `generate_instructions_enum` in
`src/generator.rs`, decided by its `match (has_accounts, has_args)`. -/
def variantShape (ix : IdlInstruction) : PayloadShape :=
  match !ix.accounts.isEmpty, !ix.args.isEmpty with
  | true, true => .accountsAndArgs
  | true, false => .accountsOnly
  | false, true => .argsOnly
  | false, false => .unit

/-- Shape of the value constructed by the match arm emitted by
`generate_deserialize_impl` in `src/generator.rs`, decided by its own
`match (has_accounts, has_args)`. -/
def decoderShape (ix : IdlInstruction) : PayloadShape :=
  match !ix.accounts.isEmpty, !ix.args.isEmpty with
  | true, true => .accountsAndArgs
  | true, false => .accountsOnly
  | false, true => .argsOnly
  | false, false => .unit

/-- Shape of a decode result, read off the presence of its accounts and
args payloads. -/
def shapeOfDecoded (d : Decoded) : PayloadShape :=
  match d.accounts, d.args with
  | some _, some _ => .accountsAndArgs
  | some _, Option.none => .accountsOnly
  | Option.none, some _ => .argsOnly
  | Option.none, Option.none => .unit

/-- Variant list of the instructions enum emitted by
`generate_instructions_enum`. -/
def generateInstructionsEnum (instrs : List IdlInstruction) :
    List (String × PayloadShape) :=
  instrs.map fun ix => (ix.name, variantShape ix)

/-- Declarations produced by one macro expansion. -/
structure Declarations where
  discriminators : List (String × List Nat)
  instructionStructs : List IxStructs
  enumVariants : List (String × PayloadShape)
deriving DecidableEq

/-- Mirrors `generate_idl_code` of `src/generator.rs` (the body of the
`parse_idl!` macro once the document is parsed): declaration emission is a
total function of the parsed schema — there is no validation step and no
failure result. -/
def generateIdlCode (idl : Idl) : Declarations :=
  { discriminators := generateDiscriminators idl.instructions
    instructionStructs := generateInstructionStructs idl.instructions
    enumVariants := generateInstructionsEnum idl.instructions }

/-! ## Canonical encoding and well-typed values

`encVal` is the borsh serialization of a value (the canonical encoding of
spec section 4.4); `WT` says a value inhabits a schema type, resolving
`Defined` references through the type-definition list exactly as `decTys`
does. -/

mutual

/-- Borsh serialization of one value: little-endian integers, `0`/`1`
booleans, raw float bytes, `u32`-length-prefixed strings / byte vectors /
element sequences, flag-prefixed options, unprefixed fixed arrays, field
concatenation for structs, and a one-byte variant ordinal for enums. -/
def encVal : Value → List Nat
  | .vInt w n => leBytes w n
  | .vBool b => [if b then 1 else 0]
  | .vFloat bs => bs
  | .vString bs => leBytes 4 bs.length ++ bs
  | .vBytes bs => leBytes 4 bs.length ++ bs
  | .vPubkey bs => bs
  | .vOption Option.none => [0]
  | .vOption (some v) => 1 :: encVal v
  | .vVec vs => leBytes 4 vs.length ++ encVals vs
  | .vArray vs => encVals vs
  | .vStruct vs => encVals vs
  | .vEnum tag vs => tag :: encVals vs

/-- Concatenated borsh serialization of a value sequence. -/
def encVals : List Value → List Nat
  | [] => []
  | v :: vs => encVal v ++ encVals vs

end

mutual

/-- Fuel needed by `decTys` to decode the buffer positions occupied by one
value when it heads the type list. -/
def needVal : Value → Nat
  | .vInt _ _ => 0
  | .vBool _ => 0
  | .vFloat _ => 0
  | .vString _ => 0
  | .vBytes _ => 0
  | .vPubkey _ => 0
  | .vOption Option.none => 0
  | .vOption (some v) => 1 + max (needVal v) 1
  | .vVec vs => needVals vs
  | .vArray vs => needVals vs
  | .vStruct vs => needVals vs
  | .vEnum _ vs => needVals vs

/-- Fuel needed by `decTys` to decode a buffer holding this value
sequence. -/
def needVals : List Value → Nat
  | [] => 1
  | v :: vs => 1 + max (needVal v) (needVals vs)

end

/-- Well-typedness of a value at a schema type, with `Defined` references
resolved through the type-definition list.  The numeric side conditions
are exactly what the wire format can represent: integer bit patterns bound
by their width, 4/8-byte non-NaN float patterns, byte lists of bytes,
`u32`-representable lengths, a one-byte enum ordinal naming an existing
variant. -/
inductive WT (types : List IdlTypeDef) : IdlType → Value → Prop where
  | int {s w n} :
      intWidth s = some w → n < 2 ^ (8 * w) →
      WT types (.primitive s) (.vInt w n)
  | bool {b} : WT types (.primitive "bool") (.vBool b)
  | f32 {bs} :
      bs.length = 4 → (∀ b ∈ bs, b < 256) → isNaN32 bs = false →
      WT types (.primitive "f32") (.vFloat bs)
  | f64 {bs} :
      bs.length = 8 → (∀ b ∈ bs, b < 256) → isNaN64 bs = false →
      WT types (.primitive "f64") (.vFloat bs)
  | string {bs} :
      (∀ b ∈ bs, b < 256) → isValidUtf8 bs = true → bs.length < 2 ^ 32 →
      WT types (.primitive "string") (.vString bs)
  | bytes {bs} :
      (∀ b ∈ bs, b < 256) → bs.length < 2 ^ 32 →
      WT types (.primitive "bytes") (.vBytes bs)
  | pubkey {bs} :
      bs.length = 32 → (∀ b ∈ bs, b < 256) →
      WT types (.primitive "pubkey") (.vPubkey bs)
  | optNone {t} : WT types (.option t) (.vOption Option.none)
  | optSome {t v} : WT types t v → WT types (.option t) (.vOption (some v))
  | vec {t vs} :
      vs.length < 2 ^ 32 → (∀ v ∈ vs, WT types t v) →
      WT types (.vec t) (.vVec vs)
  | array {size t vs} :
      vs.length = size → (∀ v ∈ vs, WT types t v) →
      WT types (.array t size) (.vArray vs)
  | definedStruct {name td vs} :
      lookupType types name = some td → td.ty.kind = "struct" →
      vs.length = (structFieldTys td.ty.fields).length →
      (∀ p ∈ (structFieldTys td.ty.fields).zip vs, WT types p.1 p.2) →
      WT types (.defined (.simple name)) (.vStruct vs)
  | definedEnum {name td tag var vs} :
      lookupType types name = some td → td.ty.kind = "enum" →
      td.ty.variants[tag]? = some var → tag < 256 →
      vs.length = (variantFieldTys var.fields).length →
      (∀ p ∈ (variantFieldTys var.fields).zip vs, WT types p.1 p.2) →
      WT types (.defined (.simple name)) (.vEnum tag vs)

/-- Head decoder of `decTys`: deserialization of a single leading field of
type `t`, with composite types recursing through `decTys` at the inner
fuel.  This is the `head` computation inlined in the cons case of
`decTys`, named so the step equations below can expose it. -/
def decHead (fuel : Nat) (types : List IdlTypeDef) (t : IdlType)
    (bs : List Nat) : Option (Value × List Nat) :=
  match t with
  | .primitive s => decPrim s bs
  | .option t' =>
    match bs with
    | 0 :: r => some (.vOption Option.none, r)
    | 1 :: r =>
      match decTys fuel types [t'] r with
      | some ([v], r') => some (.vOption (some v), r')
      | _ => Option.none
    | _ => Option.none
  | .vec t' =>
    match readLE 4 bs with
    | some (n, r) =>
      match decTys fuel types (List.replicate n t') r with
      | some (vs, r') => some (.vVec vs, r')
      | Option.none => Option.none
    | Option.none => Option.none
  | .array t' size =>
    match decTys fuel types (List.replicate size t') bs with
    | some (vs, r') => some (.vArray vs, r')
    | Option.none => Option.none
  | .defined d =>
    match lookupType types (definedName d) with
    | some td =>
      if td.ty.kind = "struct" then
        match decTys fuel types (structFieldTys td.ty.fields) bs with
        | some (vs, r') => some (.vStruct vs, r')
        | Option.none => Option.none
      else if td.ty.kind = "enum" then
        match bs with
        | tag :: r =>
          match td.ty.variants[tag]? with
          | some var =>
            match decTys fuel types (variantFieldTys var.fields) r with
            | some (vs, r') => some (.vEnum tag vs, r')
            | Option.none => Option.none
          | Option.none => Option.none
        | [] => Option.none
      else Option.none
    | Option.none => Option.none

/-- Step equation: out of fuel. -/
theorem decTys_zero (types : List IdlTypeDef) (tys : List IdlType)
    (bs : List Nat) : decTys 0 types tys bs = Option.none := rfl

/-- Step equation: an empty type list consumes nothing. -/
theorem decTys_succ_nil (fuel : Nat) (types : List IdlTypeDef)
    (bs : List Nat) : decTys (fuel + 1) types [] bs = some ([], bs) := rfl

/-- Step equation: a nonempty type list decodes its head field with
`decHead` and threads the rest of the buffer through the tail. -/
theorem decTys_succ_cons (fuel : Nat) (types : List IdlTypeDef)
    (t : IdlType) (ts : List IdlType) (bs : List Nat) :
    decTys (fuel + 1) types (t :: ts) bs =
      match decHead fuel types t bs with
      | some (v, r) =>
        match decTys fuel types ts r with
        | some (vs, r') => some (v :: vs, r')
        | Option.none => Option.none
      | Option.none => Option.none := rfl

/-! ## Append stability

A successful borsh decode reads a prefix of the buffer and never looks
past it: appending extra bytes leaves the decoded value unchanged and
lands the extra bytes in the remainder.  This is the formal content of
spec section 4.4 step 5 (trailing bytes are not an error). -/

/-- Appended bytes pass through a successful `readLE` untouched. -/
theorem readLE_append {w : Nat} {bs : List Nat} {n : Nat} {r : List Nat}
    (h : readLE w bs = some (n, r)) (ex : List Nat) :
    readLE w (bs ++ ex) = some (n, r ++ ex) := by
  induction w generalizing bs n r with
  | zero =>
    simp only [readLE, Option.some.injEq, Prod.mk.injEq] at h
    obtain ⟨rfl, rfl⟩ := h
    rfl
  | succ w ih =>
    cases bs with
    | nil => simp [readLE] at h
    | cons b bs =>
      simp only [readLE, List.append_eq] at h ⊢
      cases hr : readLE w bs with
      | none => rw [hr] at h; simp at h
      | some p =>
        rw [hr] at h
        simp only [Option.map_some', Option.some.injEq, Prod.mk.injEq] at h
        obtain ⟨rfl, rfl⟩ := h
        rw [ih hr]
        rfl

/-- Appended bytes pass through a successful `readBytes` untouched. -/
theorem readBytes_append {n : Nat} {bs cs r : List Nat}
    (h : readBytes n bs = some (cs, r)) (ex : List Nat) :
    readBytes n (bs ++ ex) = some (cs, r ++ ex) := by
  unfold readBytes at h ⊢
  split at h
  next hle =>
    simp only [Option.some.injEq, Prod.mk.injEq] at h
    obtain ⟨rfl, rfl⟩ := h
    rw [if_pos (by simp only [List.length_append]; omega)]
    rw [List.take_append_of_le_length hle, List.drop_append_of_le_length hle]
  next => simp at h

/-- Appended bytes pass through a successful `decPrim` untouched. -/
theorem decPrim_append {s : String} {bs : List Nat} {v : Value} {r : List Nat}
    (h : decPrim s bs = some (v, r)) (ex : List Nat) :
    decPrim s (bs ++ ex) = some (v, r ++ ex) := by
  unfold decPrim at h ⊢
  cases hw : intWidth s with
  | some w =>
    rw [hw] at h
    dsimp only at h ⊢
    cases hr : readLE w bs with
    | none => rw [hr] at h; simp at h
    | some p =>
      rw [hr] at h
      simp only [Option.map_some', Option.some.injEq, Prod.mk.injEq] at h
      obtain ⟨rfl, rfl⟩ := h
      rw [readLE_append hr ex]
      rfl
  | none =>
    rw [hw] at h
    dsimp only at h ⊢
    by_cases hb : s = "bool"
    · rw [if_pos hb] at h ⊢
      rcases bs with _ | ⟨b, bs'⟩
      · simp at h
      · rcases b with _ | b
        · simp only [List.cons_append, Option.some.injEq, Prod.mk.injEq] at h ⊢
          obtain ⟨rfl, rfl⟩ := h
          exact ⟨rfl, rfl⟩
        · rcases b with _ | b
          · simp only [List.cons_append, Option.some.injEq, Prod.mk.injEq] at h ⊢
            obtain ⟨rfl, rfl⟩ := h
            exact ⟨rfl, rfl⟩
          · simp at h
    · rw [if_neg hb] at h ⊢
      by_cases hf : s = "f32"
      · rw [if_pos hf] at h ⊢
        cases hr : readBytes 4 bs with
        | none => rw [hr] at h; simp at h
        | some p =>
          obtain ⟨cs, r'⟩ := p
          rw [hr] at h
          rw [readBytes_append hr ex]
          dsimp only at h ⊢
          by_cases hn : isNaN32 cs = true
          · rw [if_pos hn] at h; simp at h
          · rw [if_neg hn] at h ⊢
            simp only [Option.some.injEq, Prod.mk.injEq] at h
            obtain ⟨rfl, rfl⟩ := h
            rfl
      · rw [if_neg hf] at h ⊢
        by_cases hg : s = "f64"
        · rw [if_pos hg] at h ⊢
          cases hr : readBytes 8 bs with
          | none => rw [hr] at h; simp at h
          | some p =>
            obtain ⟨cs, r'⟩ := p
            rw [hr] at h
            rw [readBytes_append hr ex]
            dsimp only at h ⊢
            by_cases hn : isNaN64 cs = true
            · rw [if_pos hn] at h; simp at h
            · rw [if_neg hn] at h ⊢
              simp only [Option.some.injEq, Prod.mk.injEq] at h
              obtain ⟨rfl, rfl⟩ := h
              rfl
        · rw [if_neg hg] at h ⊢
          by_cases hs : s = "string"
          · rw [if_pos hs] at h ⊢
            cases hr : readLE 4 bs with
            | none => rw [hr] at h; simp at h
            | some p =>
              obtain ⟨n, r1⟩ := p
              rw [hr] at h
              rw [readLE_append hr ex]
              dsimp only at h ⊢
              cases hc : readBytes n r1 with
              | none => rw [hc] at h; simp at h
              | some q =>
                obtain ⟨cs, r2⟩ := q
                rw [hc] at h
                rw [readBytes_append hc ex]
                dsimp only at h ⊢
                by_cases hu : isValidUtf8 cs = true
                · rw [if_pos hu] at h ⊢
                  simp only [Option.some.injEq, Prod.mk.injEq] at h
                  obtain ⟨rfl, rfl⟩ := h
                  rfl
                · rw [if_neg hu] at h; simp at h
          · rw [if_neg hs] at h ⊢
            by_cases hy : s = "bytes"
            · rw [if_pos hy] at h ⊢
              cases hr : readLE 4 bs with
              | none => rw [hr] at h; simp at h
              | some p =>
                obtain ⟨n, r1⟩ := p
                rw [hr] at h
                rw [readLE_append hr ex]
                dsimp only at h ⊢
                cases hc : readBytes n r1 with
                | none => rw [hc] at h; simp at h
                | some q =>
                  obtain ⟨cs, r2⟩ := q
                  rw [hc] at h
                  rw [readBytes_append hc ex]
                  simp only [Option.some.injEq, Prod.mk.injEq] at h
                  obtain ⟨rfl, rfl⟩ := h
                  rfl
            · rw [if_neg hy] at h ⊢
              by_cases hp : s = "pubkey"
              · rw [if_pos hp] at h ⊢
                cases hr : readBytes 32 bs with
                | none => rw [hr] at h; simp at h
                | some p =>
                  obtain ⟨cs, r'⟩ := p
                  rw [hr] at h
                  rw [readBytes_append hr ex]
                  simp only [Option.some.injEq, Prod.mk.injEq] at h
                  obtain ⟨rfl, rfl⟩ := h
                  rfl
              · rw [if_neg hp] at h
                simp at h

/-- Appended bytes pass through a successful `decHead` untouched, given
that they do so for `decTys` at the inner fuel. -/
theorem decHead_append {fuel : Nat} {types : List IdlTypeDef} {t : IdlType}
    {bs : List Nat} {v : Value} {r : List Nat} (ex : List Nat)
    (H : ∀ {tys : List IdlType} {bs' : List Nat} {vs : List Value} {r' : List Nat},
      decTys fuel types tys bs' = some (vs, r') →
      decTys fuel types tys (bs' ++ ex) = some (vs, r' ++ ex))
    (h : decHead fuel types t bs = some (v, r)) :
    decHead fuel types t (bs ++ ex) = some (v, r ++ ex) := by
  cases t with
  | primitive s => exact decPrim_append h ex
  | option t' =>
    unfold decHead at h ⊢
    rcases bs with _ | ⟨b, bs'⟩
    · simp at h
    · rcases b with _ | b
      · simp only [List.cons_append, Option.some.injEq, Prod.mk.injEq] at h ⊢
        obtain ⟨rfl, rfl⟩ := h
        exact ⟨rfl, rfl⟩
      · rcases b with _ | b
        · simp only [List.cons_append] at h ⊢
          cases hd : decTys fuel types [t'] bs' with
          | none => rw [hd] at h; simp at h
          | some q =>
            obtain ⟨vl, r'⟩ := q
            rw [hd] at h
            rw [H hd]
            rcases vl with _ | ⟨v0, vrest⟩
            · simp at h
            · rcases vrest with _ | ⟨v1, vrest⟩
              · simp only [Option.some.injEq, Prod.mk.injEq] at h ⊢
                obtain ⟨rfl, rfl⟩ := h
                exact ⟨rfl, rfl⟩
              · simp at h
        · simp at h
  | vec t' =>
    unfold decHead at h ⊢
    cases hr : readLE 4 bs with
    | none => rw [hr] at h; simp at h
    | some p =>
      obtain ⟨n, r1⟩ := p
      rw [hr] at h
      rw [readLE_append hr ex]
      dsimp only at h ⊢
      cases hd : decTys fuel types (List.replicate n t') r1 with
      | none => rw [hd] at h; simp at h
      | some q =>
        obtain ⟨vs, r2⟩ := q
        rw [hd] at h
        rw [H hd]
        simp only [Option.some.injEq, Prod.mk.injEq] at h
        obtain ⟨rfl, rfl⟩ := h
        rfl
  | array t' size =>
    unfold decHead at h ⊢
    dsimp only at h ⊢
    cases hd : decTys fuel types (List.replicate size t') bs with
    | none => rw [hd] at h; simp at h
    | some q =>
      obtain ⟨vs, r2⟩ := q
      rw [hd] at h
      rw [H hd]
      simp only [Option.some.injEq, Prod.mk.injEq] at h
      obtain ⟨rfl, rfl⟩ := h
      rfl
  | defined d =>
    unfold decHead at h ⊢
    dsimp only at h ⊢
    cases hl : lookupType types (definedName d) with
    | none => rw [hl] at h; simp at h
    | some td =>
      rw [hl] at h
      dsimp only at h ⊢
      by_cases hk : td.ty.kind = "struct"
      · rw [if_pos hk] at h ⊢
        cases hd : decTys fuel types (structFieldTys td.ty.fields) bs with
        | none => rw [hd] at h; simp at h
        | some q =>
          obtain ⟨vs, r2⟩ := q
          rw [hd] at h
          rw [H hd]
          simp only [Option.some.injEq, Prod.mk.injEq] at h
          obtain ⟨rfl, rfl⟩ := h
          rfl
      · rw [if_neg hk] at h ⊢
        by_cases he : td.ty.kind = "enum"
        · rw [if_pos he] at h ⊢
          rcases bs with _ | ⟨tag, bs'⟩
          · simp at h
          · simp only [List.cons_append] at h ⊢
            cases hv : td.ty.variants[tag]? with
            | none => rw [hv] at h; simp at h
            | some var =>
              rw [hv] at h
              dsimp only at h ⊢
              cases hd : decTys fuel types (variantFieldTys var.fields) bs' with
              | none => rw [hd] at h; simp at h
              | some q =>
                obtain ⟨vs, r2⟩ := q
                rw [hd] at h
                rw [H hd]
                simp only [Option.some.injEq, Prod.mk.injEq] at h
                obtain ⟨rfl, rfl⟩ := h
                rfl
        · rw [if_neg he] at h
          simp at h

/-- Appended bytes pass through a successful `decTys` untouched: the
decoded values and the consumed prefix do not change. -/
theorem decTys_append {types : List IdlTypeDef} {fuel : Nat}
    {tys : List IdlType} {bs : List Nat} {vs : List Value} {r : List Nat}
    (h : decTys fuel types tys bs = some (vs, r)) (ex : List Nat) :
    decTys fuel types tys (bs ++ ex) = some (vs, r ++ ex) := by
  induction fuel generalizing tys bs vs r with
  | zero => rw [decTys_zero] at h; cases h
  | succ fuel ih =>
    cases tys with
    | nil =>
      rw [decTys_succ_nil] at h
      simp only [Option.some.injEq, Prod.mk.injEq] at h
      obtain ⟨rfl, rfl⟩ := h
      rw [decTys_succ_nil]
    | cons t ts =>
      rw [decTys_succ_cons] at h ⊢
      cases hh : decHead fuel types t bs with
      | none => rw [hh] at h; simp at h
      | some p =>
        obtain ⟨v, rhead⟩ := p
        rw [hh] at h
        rw [decHead_append ex (fun h' => ih h') hh]
        dsimp only at h ⊢
        cases ht : decTys fuel types ts rhead with
        | none => rw [ht] at h; simp at h
        | some q =>
          obtain ⟨vs', r'⟩ := q
          rw [ht] at h
          rw [ih ht]
          simp only [Option.some.injEq, Prod.mk.injEq] at h
          obtain ⟨rfl, rfl⟩ := h
          rfl

/-! ## Decoder error behaviour and shape claims -/

/-- C6: for every schema, accounts list and data buffer of fewer than 8
bytes, the generated decoder returns the truncated-discriminator error
(`read_exact` failure); being a total function, it never panics. -/
theorem decode_short_buffer_truncated (instrs : List IdlInstruction)
    (types : List IdlTypeDef) (fuel : Nat) (accounts : List AccountMeta)
    (buf : List Nat) (h : buf.length < 8) :
    decode instrs types fuel accounts buf = .error .truncatedDiscriminator := by
  unfold decode
  rw [if_pos h]

/-- Witness for `decode_short_buffer_truncated` at a concrete 3-byte
buffer. -/
theorem decode_short_buffer_truncated_witness :
    decode [] [] 0 [] [1, 2, 3] = .error .truncatedDiscriminator :=
  decode_short_buffer_truncated [] [] 0 [] [1, 2, 3] (by decide)

/-- C7: for every data buffer of at least 8 bytes whose leading 8 bytes
equal no instruction's discriminator, the generated decoder falls through
to the unknown-discriminator error arm. -/
theorem decode_unknown_discriminator (instrs : List IdlInstruction)
    (types : List IdlTypeDef) (fuel : Nat) (accounts : List AccountMeta)
    (buf : List Nat) (hlen : 8 ≤ buf.length)
    (hno : ∀ ix ∈ instrs, ix.discriminator ≠ buf.take 8) :
    decode instrs types fuel accounts buf = .error .unknownDiscriminator := by
  unfold decode
  rw [if_neg (by omega)]
  have hfind : instrs.find? (fun ix => ix.discriminator == buf.take 8) =
      Option.none := by
    apply List.find?_eq_none.mpr
    intro ix hix
    simp only [beq_iff_eq]
    exact hno ix hix
  rw [hfind]

/-- Witness for `decode_unknown_discriminator`: a one-instruction schema
and a buffer led by eight bytes matching nothing. -/
theorem decode_unknown_discriminator_witness :
    decode
      [{ name := "Ping", discriminator := [1, 2, 3, 4, 5, 6, 7, 8],
         accounts := [] }]
      [] 5 [] [9, 9, 9, 9, 9, 9, 9, 9, 0] = .error .unknownDiscriminator :=
  decode_unknown_discriminator _ [] 5 [] _ (by decide) (by decide)

/-- C2: decoding the example schema of the spec (operation `"Buy"`,
discriminator `66 06 3d 12 01 da eb ea`, one account `"user"`, one `u64`
argument `amount`) on one account meta and the discriminator followed by
the little-endian encoding of 42 yields the `Buy` variant with the
account's pubkey bound and `amount = 42`. -/
theorem decode_buy_example :
    decode
      [{ name := "Buy",
         discriminator := [0x66, 0x06, 0x3d, 0x12, 0x01, 0xda, 0xeb, 0xea],
         accounts := [{ name := "user" }],
         args := [{ name := "amount", ty := .primitive "u64" }] }]
      [] 2 [{ pubkey := 77 }]
      ([0x66, 0x06, 0x3d, 0x12, 0x01, 0xda, 0xeb, 0xea] ++ leBytes 8 42) =
      .ok ⟨"Buy", some [77], some [.vInt 8 42]⟩ := rfl

/-- C3: the two `match (has_accounts, has_args)` sites of the generator
agree, and every successful decode of an instruction carries exactly the
payload shape declared for that instruction's enum variant. -/
theorem decode_shape_matches_variant (instrs : List IdlInstruction)
    (types : List IdlTypeDef) (fuel : Nat) (accounts : List AccountMeta)
    (buf : List Nat) (d : Decoded) (ix : IdlInstruction)
    (hok : decode instrs types fuel accounts buf = .ok d)
    (hfind : instrs.find? (fun j => j.discriminator == buf.take 8) = some ix) :
    decoderShape ix = variantShape ix ∧ shapeOfDecoded d = variantShape ix := by
  have hshape : decoderShape ix = variantShape ix := by
    unfold decoderShape variantShape
    cases !ix.accounts.isEmpty <;> cases !ix.args.isEmpty <;> rfl
  refine ⟨hshape, ?_⟩
  unfold decode at hok
  by_cases hlen : buf.length < 8
  · rw [if_pos hlen] at hok; cases hok
  · rw [if_neg hlen, hfind] at hok
    dsimp only at hok
    unfold variantShape shapeOfDecoded
    cases ha : !ix.accounts.isEmpty <;> cases hg : !ix.args.isEmpty <;>
        rw [ha, hg] at hok <;> dsimp only at hok ⊢
    · cases hok
      rfl
    · cases hd : decTys fuel types (ix.args.map (·.ty)) (buf.drop 8) with
      | none => rw [hd] at hok; cases hok
      | some p =>
        obtain ⟨vals, rest⟩ := p
        rw [hd] at hok
        cases hok
        rfl
    · cases hm : fromAccountMetas ix.accounts accounts with
      | error e => rw [hm] at hok; cases hok
      | ok accs =>
        rw [hm] at hok
        cases hok
        rfl
    · cases hm : fromAccountMetas ix.accounts accounts with
      | error e => rw [hm] at hok; cases hok
      | ok accs =>
        rw [hm] at hok
        dsimp only at hok
        cases hd : decTys fuel types (ix.args.map (·.ty)) (buf.drop 8) with
        | none => rw [hd] at hok; cases hok
        | some p =>
          obtain ⟨vals, rest⟩ := p
          rw [hd] at hok
          cases hok
          rfl

/-- Witness for `decode_shape_matches_variant` at the `Buy` example. -/
theorem decode_shape_matches_variant_witness :
    decoderShape
        { name := "Buy",
          discriminator := [0x66, 0x06, 0x3d, 0x12, 0x01, 0xda, 0xeb, 0xea],
          accounts := [{ name := "user" }],
          args := [{ name := "amount", ty := IdlType.primitive "u64" }] } =
      variantShape
        { name := "Buy",
          discriminator := [0x66, 0x06, 0x3d, 0x12, 0x01, 0xda, 0xeb, 0xea],
          accounts := [{ name := "user" }],
          args := [{ name := "amount", ty := IdlType.primitive "u64" }] } ∧
    shapeOfDecoded ⟨"Buy", some [77], some [.vInt 8 42]⟩ =
      variantShape
        { name := "Buy",
          discriminator := [0x66, 0x06, 0x3d, 0x12, 0x01, 0xda, 0xeb, 0xea],
          accounts := [{ name := "user" }],
          args := [{ name := "amount", ty := IdlType.primitive "u64" }] } :=
  decode_shape_matches_variant
    [{ name := "Buy",
       discriminator := [0x66, 0x06, 0x3d, 0x12, 0x01, 0xda, 0xeb, 0xea],
       accounts := [{ name := "user" }],
       args := [{ name := "amount", ty := IdlType.primitive "u64" }] }]
    [] 2 [{ pubkey := 77 }]
    ([0x66, 0x06, 0x3d, 0x12, 0x01, 0xda, 0xeb, 0xea] ++ leBytes 8 42)
    ⟨"Buy", some [77], some [.vInt 8 42]⟩
    { name := "Buy",
      discriminator := [0x66, 0x06, 0x3d, 0x12, 0x01, 0xda, 0xeb, 0xea],
      accounts := [{ name := "user" }],
      args := [{ name := "amount", ty := IdlType.primitive "u64" }] }
    (by rfl) (by rfl)

/-- The generated `from_account_metas` reads only the pubkeys of the
supplied metas. -/
theorem fromAccountMetas_pubkeys (descs : List IdlInstructionAccount)
    {m1 m2 : List AccountMeta}
    (h : m1.map (·.pubkey) = m2.map (·.pubkey)) :
    fromAccountMetas descs m1 = fromAccountMetas descs m2 := by
  have hlen : m1.length = m2.length := by
    have hc := congrArg List.length h
    simpa using hc
  unfold fromAccountMetas
  rw [hlen, h]

/-- C10: the decode result depends only on the pubkeys of the supplied
account metas and on the data bytes; the signer/writable flags never
influence it. -/
theorem decode_ignores_meta_flags (instrs : List IdlInstruction)
    (types : List IdlTypeDef) (fuel : Nat) {m1 m2 : List AccountMeta}
    (buf : List Nat) (h : m1.map (·.pubkey) = m2.map (·.pubkey)) :
    decode instrs types fuel m1 buf = decode instrs types fuel m2 buf := by
  unfold decode
  by_cases hlen : buf.length < 8
  · rw [if_pos hlen, if_pos hlen]
  · rw [if_neg hlen, if_neg hlen]
    cases hf : instrs.find? (fun ix => ix.discriminator == buf.take 8) with
    | none => rfl
    | some ix =>
      dsimp only
      cases !ix.accounts.isEmpty <;> cases !ix.args.isEmpty <;> dsimp only <;>
        first
        | rfl
        | rw [fromAccountMetas_pubkeys ix.accounts h]

/-- Witness for `decode_ignores_meta_flags`: same pubkey, flipped flags. -/
theorem decode_ignores_meta_flags_witness :
    decode
      [{ name := "Buy",
         discriminator := [0x66, 0x06, 0x3d, 0x12, 0x01, 0xda, 0xeb, 0xea],
         accounts := [{ name := "user" }],
         args := [{ name := "amount", ty := IdlType.primitive "u64" }] }]
      [] 2 [{ pubkey := 77, isSigner := true, isWritable := true }]
      ([0x66, 0x06, 0x3d, 0x12, 0x01, 0xda, 0xeb, 0xea] ++ leBytes 8 42) =
    decode
      [{ name := "Buy",
         discriminator := [0x66, 0x06, 0x3d, 0x12, 0x01, 0xda, 0xeb, 0xea],
         accounts := [{ name := "user" }],
         args := [{ name := "amount", ty := IdlType.primitive "u64" }] }]
      [] 2 [{ pubkey := 77, isSigner := false, isWritable := false }]
      ([0x66, 0x06, 0x3d, 0x12, 0x01, 0xda, 0xeb, 0xea] ++ leBytes 8 42) :=
  decode_ignores_meta_flags _ [] 2 _ rfl

/-- C8: bytes remaining after the declared payload never make a
successful decode fail: the decoder returns the same variant on the
extended buffer, and the trailing bytes are not part of the result. -/
theorem decode_trailing_bytes_ignored (instrs : List IdlInstruction)
    (types : List IdlTypeDef) (fuel : Nat) (accounts : List AccountMeta)
    (buf : List Nat) (d : Decoded) (ex : List Nat)
    (hok : decode instrs types fuel accounts buf = .ok d) :
    decode instrs types fuel accounts (buf ++ ex) = .ok d := by
  unfold decode at hok ⊢
  by_cases hlen : buf.length < 8
  · rw [if_pos hlen] at hok; cases hok
  · rw [if_neg hlen] at hok
    rw [if_neg (by simp only [List.length_append]; omega)]
    have htake : (buf ++ ex).take 8 = buf.take 8 :=
      List.take_append_of_le_length (by omega)
    have hdrop : (buf ++ ex).drop 8 = buf.drop 8 ++ ex :=
      List.drop_append_of_le_length (by omega)
    rw [htake, hdrop]
    cases hf : instrs.find? (fun j => j.discriminator == buf.take 8) with
    | none => rw [hf] at hok; dsimp only at hok; cases hok
    | some ix =>
      rw [hf] at hok
      dsimp only at hok ⊢
      cases ha : !ix.accounts.isEmpty <;> cases hg : !ix.args.isEmpty <;>
          rw [ha, hg] at hok <;> dsimp only at hok ⊢
      · exact hok
      · cases hd : decTys fuel types (ix.args.map (·.ty)) (buf.drop 8) with
        | none => rw [hd] at hok; cases hok
        | some p =>
          obtain ⟨vals, rest⟩ := p
          rw [hd] at hok
          rw [decTys_append hd ex]
          exact hok
      · cases hm : fromAccountMetas ix.accounts accounts with
        | error e => rw [hm] at hok; cases hok
        | ok accs =>
          rw [hm] at hok
          exact hok
      · cases hm : fromAccountMetas ix.accounts accounts with
        | error e => rw [hm] at hok; cases hok
        | ok accs =>
          rw [hm] at hok
          dsimp only at hok ⊢
          cases hd : decTys fuel types (ix.args.map (·.ty)) (buf.drop 8) with
          | none => rw [hd] at hok; cases hok
          | some p =>
            obtain ⟨vals, rest⟩ := p
            rw [hd] at hok
            rw [decTys_append hd ex]
            exact hok

/-- Witness for `decode_trailing_bytes_ignored`: the `Buy` example with
three junk bytes appended decodes identically. -/
theorem decode_trailing_bytes_ignored_witness :
    decode
      [{ name := "Buy",
         discriminator := [0x66, 0x06, 0x3d, 0x12, 0x01, 0xda, 0xeb, 0xea],
         accounts := [{ name := "user" }],
         args := [{ name := "amount", ty := IdlType.primitive "u64" }] }]
      [] 2 [{ pubkey := 77 }]
      (([0x66, 0x06, 0x3d, 0x12, 0x01, 0xda, 0xeb, 0xea] ++ leBytes 8 42) ++
        [255, 254, 253]) =
      .ok ⟨"Buy", some [77], some [.vInt 8 42]⟩ :=
  decode_trailing_bytes_ignored _ [] 2 _ _ _ [255, 254, 253] (by rfl)

/-- C5 counterexample: an operation that declares no accounts performs no
account-count check at all — the generator only emits
`from_account_metas` (and its length test) when the accounts list is
nonempty, and the args-only decoder arm never looks at the supplied
accounts.  Decoding with a one-element accounts list against a
zero-account operation therefore succeeds instead of failing with an
account-count error. -/
theorem decode_account_mismatch_counterexample :
    decode
      [{ name := "Ping", discriminator := [1, 2, 3, 4, 5, 6, 7, 8],
         accounts := [],
         args := [{ name := "x", ty := .primitive "u8" }] }]
      [] 2 [{ pubkey := 5 }]
      [1, 2, 3, 4, 5, 6, 7, 8, 9] =
      .ok ⟨"Ping", Option.none, some [.vInt 1 9]⟩ := rfl

/-- C5 as amended: for a matched operation that declares at least one
account, an accounts list of any other length fails with the fixed
"invalid account meta length" error — a constant error value that carries
neither the expected nor the actual count — regardless of the data
bytes. -/
theorem decode_account_mismatch (instrs : List IdlInstruction)
    (types : List IdlTypeDef) (fuel : Nat) (metas : List AccountMeta)
    (buf : List Nat) (ix : IdlInstruction) (hlen : 8 ≤ buf.length)
    (hfind : instrs.find? (fun j => j.discriminator == buf.take 8) = some ix)
    (hacc : ix.accounts ≠ [])
    (hmis : metas.length ≠ ix.accounts.length) :
    decode instrs types fuel metas buf = .error .invalidAccountMetaLength := by
  unfold decode
  rw [if_neg (by omega), hfind]
  dsimp only
  have ha : (!ix.accounts.isEmpty) = true := by
    cases hae : ix.accounts.isEmpty
    · rfl
    · exact absurd (List.isEmpty_iff.mp hae) hacc
  have hm : fromAccountMetas ix.accounts metas =
      .error .invalidAccountMetaLength := by
    unfold fromAccountMetas
    rw [if_pos hmis]
  rw [ha]
  cases hg : !ix.args.isEmpty <;> dsimp only <;> rw [hm]

/-- Witness for `decode_account_mismatch`: the `Buy` operation (one
declared account) decoded with an empty accounts list and otherwise valid
bytes. -/
theorem decode_account_mismatch_witness :
    decode
      [{ name := "Buy",
         discriminator := [0x66, 0x06, 0x3d, 0x12, 0x01, 0xda, 0xeb, 0xea],
         accounts := [{ name := "user" }],
         args := [{ name := "amount", ty := IdlType.primitive "u64" }] }]
      [] 2 []
      ([0x66, 0x06, 0x3d, 0x12, 0x01, 0xda, 0xeb, 0xea] ++ leBytes 8 42) =
      .error .invalidAccountMetaLength :=
  decode_account_mismatch _ [] 2 [] _
    { name := "Buy",
      discriminator := [0x66, 0x06, 0x3d, 0x12, 0x01, 0xda, 0xeb, 0xea],
      accounts := [{ name := "user" }],
      args := [{ name := "amount", ty := IdlType.primitive "u64" }] }
    (by decide) (by rfl) (by decide) (by decide)

/-- C4 counterexample: a schema whose two operations share the same
8-byte discriminator loads and generates successfully — `parse_idl` and
`generate_idl_code` contain no duplicate-discriminator validation and no
failure path, so a full set of declarations is produced, including one
discriminator constant per operation with identical bytes. -/
theorem duplicate_discriminator_counterexample :
    generateIdlCode
      { address := "Prog111",
        metadata := { name := "demo", version := "0.1.0" },
        instructions :=
          [{ name := "A", discriminator := [1, 2, 3, 4, 5, 6, 7, 8],
             accounts := [] },
           { name := "B", discriminator := [1, 2, 3, 4, 5, 6, 7, 8],
             accounts := [] }] } =
      { discriminators := [("A_DISCRIMINATOR", [1, 2, 3, 4, 5, 6, 7, 8]),
                           ("B_DISCRIMINATOR", [1, 2, 3, 4, 5, 6, 7, 8])],
        instructionStructs :=
          [⟨Option.none, Option.none, Option.none⟩,
           ⟨Option.none, Option.none, Option.none⟩],
        enumVariants := [("A", .unit), ("B", .unit)] } := rfl

/-- C4 as amended: a schema with a duplicated discriminator is not
rejected — declarations are emitted for both operations, and at decode
time a buffer bearing the shared discriminator resolves to the first
matching operation in schema order (the second match arm is dead). -/
theorem duplicate_discriminator_loads_and_first_wins :
    (generateIdlCode
      { address := "Prog111",
        metadata := { name := "demo", version := "0.1.0" },
        instructions :=
          [{ name := "A", discriminator := [1, 2, 3, 4, 5, 6, 7, 8],
             accounts := [] },
           { name := "B", discriminator := [1, 2, 3, 4, 5, 6, 7, 8],
             accounts := [] }] }).discriminators.length = 2 ∧
    decode
      [{ name := "A", discriminator := [1, 2, 3, 4, 5, 6, 7, 8],
         accounts := [] },
       { name := "B", discriminator := [1, 2, 3, 4, 5, 6, 7, 8],
         accounts := [] }]
      [] 2 [] [1, 2, 3, 4, 5, 6, 7, 8] =
      .ok ⟨"A", Option.none, Option.none⟩ := ⟨rfl, rfl⟩

/-- C9 counterexample: an operation with no accounts gets no accounts
record at all — `generate_instruction_structs` emits the struct only
under `!ix.accounts.is_empty()` — rather than the zero-field record the
claim requires. -/
theorem no_accounts_record_counterexample :
    generateInstructionStructs
      [{ name := "Ping", discriminator := [1, 2, 3, 4, 5, 6, 7, 8],
         accounts := [],
         args := [{ name := "x", ty := .primitive "u8" }] }] =
      [{ accountsLenConst := Option.none, accountsRecord := Option.none,
         argsRecord := some ⟨"PingArgs", [("x", RustTy.u8)]⟩ }] := rfl

/-- C9 as amended: for every operation, an accounts record is emitted
exactly when the operation declares at least one account, and then its
fields are the operation's account descriptors in schema order, each
typed as the Pubkey (address) type; an operation without accounts gets no
accounts record. -/
theorem accounts_record_emission (instrs : List IdlInstruction) (i : Nat)
    (ix : IdlInstruction) (hix : instrs[i]? = some ix) :
    (generateInstructionStructs instrs)[i]?.map (·.accountsRecord) =
      some (if ix.accounts.isEmpty then Option.none
        else some ⟨ix.name ++ "Accounts",
          ix.accounts.map fun acc => (acc.name, RustTy.pubkey)⟩) := by
  unfold generateInstructionStructs
  rw [List.getElem?_map, hix]
  rfl

/-- Witness for `accounts_record_emission` at the `Buy` example schema,
index 0. -/
theorem accounts_record_emission_witness :
    (generateInstructionStructs
      [{ name := "Buy",
         discriminator := [0x66, 0x06, 0x3d, 0x12, 0x01, 0xda, 0xeb, 0xea],
         accounts := [{ name := "user" }],
         args := [{ name := "amount", ty := IdlType.primitive "u64" }] }])[0]?.map
        (·.accountsRecord) =
      some (if ([{ name := "user" }] :
            List IdlInstructionAccount).isEmpty then Option.none
        else some ⟨"Buy" ++ "Accounts",
          ([{ name := "user" }] : List IdlInstructionAccount).map
            fun acc => (acc.name, RustTy.pubkey)⟩) :=
  accounts_record_emission _ 0
    { name := "Buy",
      discriminator := [0x66, 0x06, 0x3d, 0x12, 0x01, 0xda, 0xeb, 0xea],
      accounts := [{ name := "user" }],
      args := [{ name := "amount", ty := IdlType.primitive "u64" }] }
    (by rfl)

/-! ## Round trip of the canonical encoding

`encVal`/`encVals` serialize well-typed values; decoding the result (with
anything appended) recovers exactly those values. -/

/-- A `w`-byte little-endian rendering has length `w`. -/
theorem leBytes_length (w n : Nat) : (leBytes w n).length = w := by
  induction w generalizing n with
  | zero => rfl
  | succ w ih => simp [leBytes, ih]

/-- Reading back a `w`-byte little-endian rendering of `n < 2 ^ (8 * w)`
recovers `n` and leaves the rest of the buffer untouched. -/
theorem readLE_round {w n : Nat} (h : n < 2 ^ (8 * w)) (rest : List Nat) :
    readLE w (leBytes w n ++ rest) = some (n, rest) := by
  induction w generalizing n with
  | zero =>
    have hn : n = 0 := by simpa using h
    subst hn
    rfl
  | succ w ih =>
    have hlt : n / 256 < 2 ^ (8 * w) := by
      have h2 : (2 : Nat) ^ (8 * (w + 1)) = 256 * 2 ^ (8 * w) := by ring
      rw [h2] at h
      exact Nat.div_lt_of_lt_mul h
    simp only [leBytes, List.cons_append, readLE, List.append_eq]
    rw [ih hlt]
    simp only [Option.map_some', Option.some.injEq, Prod.mk.injEq]
    exact ⟨Nat.mod_add_div n 256, trivial⟩

/-- Reading back exactly the bytes of a list of known length recovers the
list and leaves the rest untouched. -/
theorem readBytes_exact {n : Nat} {cs : List Nat} (h : cs.length = n)
    (rest : List Nat) : readBytes n (cs ++ rest) = some (cs, rest) := by
  unfold readBytes
  rw [if_pos (by simp only [List.length_append]; omega)]
  rw [List.take_left' h, List.drop_left' h]

/-- With pairwise-distinct discriminators, the generated match resolves
the discriminator of a schema instruction to that instruction. -/
theorem find?_discriminator_self {instrs : List IdlInstruction}
    {ix : IdlInstruction} (hmem : ix ∈ instrs)
    (hnodup : (instrs.map (·.discriminator)).Nodup) :
    instrs.find? (fun j => j.discriminator == ix.discriminator) = some ix := by
  induction instrs with
  | nil => cases hmem
  | cons a rest ih =>
    rw [List.map_cons, List.nodup_cons] at hnodup
    obtain ⟨hnotin, hnodup'⟩ := hnodup
    rcases List.mem_cons.mp hmem with rfl | hmem'
    · exact List.find?_cons_of_pos _ (by simp)
    · have hpa : (a.discriminator == ix.discriminator) = false := by
        simp only [beq_eq_false_iff_ne, ne_eq]
        intro he
        exact hnotin (he ▸ List.mem_map_of_mem (·.discriminator) hmem')
      simp only [List.find?, hpa]
      exact ih hmem' hnodup'

/-- A pair drawn from a zip with a replicated list has the replicated
element first and a list member second. -/
theorem zip_replicate_mem {α β : Type} {a : α} {l : List β} {n : Nat}
    (p : α × β) (hp : p ∈ (List.replicate n a).zip l) : p.1 = a ∧ p.2 ∈ l := by
  have hm := List.of_mem_zip hp
  exact ⟨List.eq_of_mem_replicate hm.1, hm.2⟩

/-- Decoding the canonical encoding of one well-typed leading field
recovers the value, given the round trip for `decTys` at the inner
fuel. -/
theorem decHead_round {types : List IdlTypeDef} {f : Nat} {t : IdlType}
    {v : Value} (rest : List Nat)
    (Hdec : ∀ (tys : List IdlType) (vals : List Value),
      vals.length = tys.length →
      (∀ p ∈ tys.zip vals, WT types p.1 p.2) → needVals vals ≤ f →
      ∀ r : List Nat, decTys f types tys (encVals vals ++ r) = some (vals, r))
    (hwt : WT types t v) (hf : needVal v ≤ f) :
    decHead f types t (encVal v ++ rest) = some (v, rest) := by
  cases hwt with
  | int hw hn =>
    simp only [encVal]
    unfold decHead decPrim
    dsimp only
    rw [hw]
    dsimp only
    rw [readLE_round hn rest]
    rfl
  | @bool b =>
    simp only [encVal]
    cases b <;> rfl
  | @f32 bs hlen hbytes hnan =>
    simp only [encVal]
    unfold decHead decPrim
    dsimp only
    rw [show intWidth "f32" = Option.none from rfl]
    dsimp only
    rw [if_neg (by decide), if_pos rfl]
    rw [readBytes_exact hlen rest]
    dsimp only
    rw [hnan]
    rfl
  | @f64 bs hlen hbytes hnan =>
    simp only [encVal]
    unfold decHead decPrim
    dsimp only
    rw [show intWidth "f64" = Option.none from rfl]
    dsimp only
    rw [if_neg (by decide), if_neg (by decide), if_pos rfl]
    rw [readBytes_exact hlen rest]
    dsimp only
    rw [hnan]
    rfl
  | @string bs hbytes hutf hlen32 =>
    simp only [encVal]
    unfold decHead decPrim
    dsimp only
    rw [show intWidth "string" = Option.none from rfl]
    dsimp only
    rw [if_neg (by decide), if_neg (by decide), if_neg (by decide), if_pos rfl]
    rw [List.append_assoc]
    rw [readLE_round (show bs.length < 2 ^ (8 * 4) from hlen32) (bs ++ rest)]
    dsimp only
    rw [readBytes_exact rfl rest]
    dsimp only
    rw [hutf]
    rfl
  | @bytes bs hbytes hlen32 =>
    simp only [encVal]
    unfold decHead decPrim
    dsimp only
    rw [show intWidth "bytes" = Option.none from rfl]
    dsimp only
    rw [if_neg (by decide), if_neg (by decide), if_neg (by decide),
      if_neg (by decide), if_pos rfl]
    rw [List.append_assoc]
    rw [readLE_round (show bs.length < 2 ^ (8 * 4) from hlen32) (bs ++ rest)]
    dsimp only
    rw [readBytes_exact rfl rest]
  | @pubkey bs hlen hbytes =>
    simp only [encVal]
    unfold decHead decPrim
    dsimp only
    rw [show intWidth "pubkey" = Option.none from rfl]
    dsimp only
    rw [if_neg (by decide), if_neg (by decide), if_neg (by decide),
      if_neg (by decide), if_neg (by decide), if_pos rfl]
    rw [readBytes_exact hlen rest]
  | optNone =>
    simp only [encVal]
    rfl
  | @optSome t' v' hwt' =>
    simp only [encVal]
    unfold decHead
    dsimp only
    simp only [List.cons_append]
    have hzip : ([t'].zip [v']) = [(t', v')] := rfl
    have hf1 : needVals [v'] ≤ f := by
      have h1 : needVals [v'] = 1 + max (needVal v') 1 := by
        simp [needVals]
      have h2 : needVal (Value.vOption (some v')) = 1 + max (needVal v') 1 := by
        simp [needVal]
      omega
    have hdec : decTys f types [t'] (encVal v' ++ rest) = some ([v'], rest) := by
      have h0 := Hdec [t'] [v'] rfl
        (by
          intro p hp
          rw [hzip, List.mem_singleton] at hp
          rw [hp]
          exact hwt')
        hf1 rest
      simpa [encVals] using h0
    rw [hdec]
  | @vec t' vs hlen32 hall =>
    simp only [encVal]
    unfold decHead
    dsimp only
    rw [List.append_assoc]
    rw [readLE_round (show vs.length < 2 ^ (8 * 4) from hlen32)
      (encVals vs ++ rest)]
    dsimp only
    have hdec : decTys f types (List.replicate vs.length t')
        (encVals vs ++ rest) = some (vs, rest) := by
      apply Hdec
      · simp
      · intro p hp
        obtain ⟨h1, h2⟩ := zip_replicate_mem p hp
        exact h1 ▸ hall p.2 h2
      · have h2 : needVal (Value.vVec vs) = needVals vs := by simp [needVal]
        omega
    rw [hdec]
  | @array size t' vs hsz hall =>
    simp only [encVal]
    unfold decHead
    dsimp only
    have hdec : decTys f types (List.replicate size t')
        (encVals vs ++ rest) = some (vs, rest) := by
      apply Hdec
      · simp [hsz]
      · intro p hp
        obtain ⟨h1, h2⟩ := zip_replicate_mem p hp
        exact h1 ▸ hall p.2 h2
      · have h2 : needVal (Value.vArray vs) = needVals vs := by simp [needVal]
        omega
    rw [hdec]
  | @definedStruct name td vs hlook hkind hlen hwt' =>
    simp only [encVal]
    unfold decHead
    dsimp only [definedName]
    rw [hlook]
    dsimp only
    rw [if_pos hkind]
    have hdec : decTys f types (structFieldTys td.ty.fields)
        (encVals vs ++ rest) = some (vs, rest) := by
      apply Hdec _ _ hlen hwt'
      have h2 : needVal (Value.vStruct vs) = needVals vs := by simp [needVal]
      omega
    rw [hdec]
  | @definedEnum name td tag var vs hlook hkind hvar htag hlen hwt' =>
    simp only [encVal]
    unfold decHead
    dsimp only [definedName]
    rw [hlook]
    dsimp only
    rw [if_neg (by simp [hkind]), if_pos hkind]
    simp only [List.cons_append]
    rw [hvar]
    dsimp only
    have hdec : decTys f types (variantFieldTys var.fields)
        (encVals vs ++ rest) = some (vs, rest) := by
      apply Hdec _ _ hlen hwt'
      have h2 : needVal (Value.vEnum tag vs) = needVals vs := by simp [needVal]
      omega
    rw [hdec]

/-- Borsh round trip for a list of field types: decoding the canonical
encoding of well-typed values (with anything appended) returns exactly
those values with the appended bytes as remainder, given fuel at least
`needVals vals`. -/
theorem decTys_round {types : List IdlTypeDef} (fuel : Nat) :
    ∀ (tys : List IdlType) (vals : List Value),
      vals.length = tys.length →
      (∀ p ∈ tys.zip vals, WT types p.1 p.2) →
      needVals vals ≤ fuel →
      ∀ rest : List Nat,
        decTys fuel types tys (encVals vals ++ rest) = some (vals, rest) := by
  induction fuel using Nat.strong_induction_on with
  | _ fuel IH =>
    intro tys vals hlen hwt hfuel rest
    cases tys with
    | nil =>
      have hv : vals = [] := List.length_eq_zero.mp (by simpa using hlen)
      subst hv
      have h1 : (1 : Nat) ≤ fuel := by
        have he : needVals ([] : List Value) = 1 := by simp [needVals]
        omega
      obtain ⟨f, rfl⟩ : ∃ f, fuel = f + 1 := ⟨fuel - 1, by omega⟩
      rw [show encVals [] = ([] : List Nat) from by simp [encVals]]
      rw [decTys_succ_nil]
      rfl
    | cons t ts =>
      cases vals with
      | nil => simp at hlen
      | cons v vs =>
        have he : needVals (v :: vs) = 1 + max (needVal v) (needVals vs) := by
          simp [needVals]
        have h1 : (1 : Nat) ≤ fuel := by omega
        obtain ⟨f, rfl⟩ : ∃ f, fuel = f + 1 := ⟨fuel - 1, by omega⟩
        have hmax1 : needVal v ≤ f := by
          have hm := Nat.le_max_left (needVal v) (needVals vs)
          omega
        have hmax2 : needVals vs ≤ f := by
          have hm := Nat.le_max_right (needVal v) (needVals vs)
          omega
        have hwthead : WT types t v :=
          hwt (t, v) (by rw [List.zip_cons_cons]; exact List.mem_cons_self _ _)
        have hwttail : ∀ p ∈ ts.zip vs, WT types p.1 p.2 := by
          intro p hp
          apply hwt
          rw [List.zip_cons_cons]
          exact List.mem_cons_of_mem _ hp
        have Hdec : ∀ (tys' : List IdlType) (vals' : List Value),
            vals'.length = tys'.length →
            (∀ p ∈ tys'.zip vals', WT types p.1 p.2) → needVals vals' ≤ f →
            ∀ r : List Nat,
              decTys f types tys' (encVals vals' ++ r) = some (vals', r) :=
          fun tys' vals' ha hb hc r => IH f (by omega) tys' vals' ha hb hc r
        rw [show encVals (v :: vs) = encVal v ++ encVals vs from by
          simp [encVals]]
        rw [decTys_succ_cons, List.append_assoc]
        rw [decHead_round (encVals vs ++ rest) Hdec hwthead hmax1]
        dsimp only
        rw [Hdec ts vs (by simpa using hlen) hwttail hmax2 rest]

/-- C1: the round-trip law.  For a valid schema (8-byte, pairwise
distinct discriminators), any operation in it, an accounts list of the
declared length, and any sequence of args values well-typed at the
operation's argument types, decoding the canonical payload — the
operation's discriminator followed by the borsh encoding of the values —
returns that operation's variant with the accounts bound positionally and
exactly the encoded field values. -/
theorem decode_encode_round_trip (instrs : List IdlInstruction)
    (types : List IdlTypeDef) (ix : IdlInstruction) (hmem : ix ∈ instrs)
    (hdisc8 : ∀ j ∈ instrs, j.discriminator.length = 8)
    (hnodup : (instrs.map (·.discriminator)).Nodup)
    (metas : List AccountMeta) (hmlen : metas.length = ix.accounts.length)
    (vals : List Value) (hvlen : vals.length = ix.args.length)
    (hwt : ∀ p ∈ (ix.args.map (·.ty)).zip vals, WT types p.1 p.2)
    (fuel : Nat) (hfuel : needVals vals ≤ fuel) :
    decode instrs types fuel metas (ix.discriminator ++ encVals vals) =
      .ok ⟨ix.name,
        if ix.accounts.isEmpty then Option.none
          else some (metas.map (·.pubkey)),
        if ix.args.isEmpty then Option.none else some vals⟩ := by
  have h8 : ix.discriminator.length = 8 := hdisc8 ix hmem
  unfold decode
  rw [if_neg (show ¬((ix.discriminator ++ encVals vals).length < 8) from by
    simp only [List.length_append, h8]; omega)]
  rw [List.take_left' h8, List.drop_left' h8]
  rw [find?_discriminator_self hmem hnodup]
  dsimp only
  have hmetas : fromAccountMetas ix.accounts metas =
      .ok (metas.map (·.pubkey)) := by
    unfold fromAccountMetas
    rw [if_neg (by omega)]
  have hdec : decTys fuel types (ix.args.map (·.ty)) (encVals vals) =
      some (vals, []) := by
    have h0 := decTys_round fuel (ix.args.map (·.ty)) vals
      (by simpa using hvlen) hwt hfuel []
    simpa using h0
  cases ha : ix.accounts.isEmpty <;> cases hg : ix.args.isEmpty <;>
    simp only [Bool.not_false, Bool.not_true, hmetas, hdec] <;> rfl

/-- Witness for `decode_encode_round_trip` at the `Buy` schema: one
account meta, args value 42, fuel 2. -/
theorem decode_encode_round_trip_witness :
    decode
      [{ name := "Buy",
         discriminator := [0x66, 0x06, 0x3d, 0x12, 0x01, 0xda, 0xeb, 0xea],
         accounts := [{ name := "user" }],
         args := [{ name := "amount", ty := IdlType.primitive "u64" }] }]
      [] 2 [{ pubkey := 77 }]
      ([0x66, 0x06, 0x3d, 0x12, 0x01, 0xda, 0xeb, 0xea] ++
        encVals [.vInt 8 42]) =
      .ok ⟨"Buy",
        if ([{ name := "user" }] : List IdlInstructionAccount).isEmpty
          then Option.none
          else some (([{ pubkey := 77 }] : List AccountMeta).map (·.pubkey)),
        if ([{ name := "amount", ty := IdlType.primitive "u64" }] :
            List IdlField).isEmpty
          then Option.none else some [.vInt 8 42]⟩ :=
  decode_encode_round_trip
    [{ name := "Buy",
       discriminator := [0x66, 0x06, 0x3d, 0x12, 0x01, 0xda, 0xeb, 0xea],
       accounts := [{ name := "user" }],
       args := [{ name := "amount", ty := IdlType.primitive "u64" }] }]
    []
    { name := "Buy",
      discriminator := [0x66, 0x06, 0x3d, 0x12, 0x01, 0xda, 0xeb, 0xea],
      accounts := [{ name := "user" }],
      args := [{ name := "amount", ty := IdlType.primitive "u64" }] }
    (List.mem_singleton.mpr rfl)
    (by decide)
    (by decide)
    [{ pubkey := 77 }] (by decide)
    [.vInt 8 42] (by decide)
    (by
      intro p hp
      have hp' : p = (IdlType.primitive "u64", Value.vInt 8 42) := by
        simpa using hp
      rw [hp']
      exact WT.int rfl (by norm_num))
    2
    (by norm_num [needVals, needVal])
